import Mathlib

/-!
Shallow embedding of the balance-computation core of the Splitr
repository: the Convex query `getGroupExpenses` (src/unnamed/part_002),
which builds a pairwise debt ledger from expense splits, applies
settlements, nets each unordered pair into a single direction, and
projects per-member balances.

The JavaScript dynamic-object semantics that matter for this code are
modelled explicitly:
* reading a missing object key yields `undefined` (`JsVal.undef`);
* arithmetic on `undefined` or `NaN` yields `NaN` (`JsVal.nan`);
* indexing into `undefined` (a missing ledger row, as in
  `ledger[debtor][payer]` for a `debtor` that is not a group member) is
  a thrown `TypeError`, modelled by `Except.error ()`;
* the comparisons `v > 0` and `v < 0` are `false` for `NaN` and
  `undefined`.
Monetary amounts are modelled as exact rationals; member ids are the
id strings that JavaScript compares lexicographically, so the `a >= b`
test of the netting loop is the `String` linear order.
-/

/-- A JavaScript value stored in the `totals` or `ledger` objects:
a number, `NaN`, or `undefined` (missing key). -/
inductive JsVal where
  | undef : JsVal
  | nan : JsVal
  | num : ℚ → JsVal
deriving DecidableEq

/-- JS `v + q`: numeric addition, `NaN` when `v` is `NaN`/`undefined`. -/
def jsAdd : JsVal → ℚ → JsVal
  | JsVal.num x, q => JsVal.num (x + q)
  | _, _ => JsVal.nan

/-- JS `v - q`: numeric subtraction, `NaN` when `v` is `NaN`/`undefined`. -/
def jsSub : JsVal → ℚ → JsVal
  | JsVal.num x, q => JsVal.num (x - q)
  | _, _ => JsVal.nan

/-- JS `v - w` on two object fields (used for `ledger[a][b] - ledger[b][a]`). -/
def jsSubV : JsVal → JsVal → JsVal
  | JsVal.num x, JsVal.num y => JsVal.num (x - y)
  | _, _ => JsVal.nan

/-- JS unary minus. -/
def jsNeg : JsVal → JsVal
  | JsVal.num x => JsVal.num (-x)
  | _ => JsVal.nan

/-- JS `v > 0` (false for `NaN` and `undefined`). -/
def jsGt0 : JsVal → Bool
  | JsVal.num x => decide (0 < x)
  | _ => false

/-- JS `v < 0` (false for `NaN` and `undefined`). -/
def jsLt0 : JsVal → Bool
  | JsVal.num x => decide (x < 0)
  | _ => false

/-- Rational reading of a `JsVal`, defaulting to `0`; used only to state
sum invariants about states whose entries are all numeric. -/
def jsq : JsVal → ℚ
  | JsVal.num x => x
  | _ => 0

/-- JS `v + w` on two values (used to state the zero-sum property). -/
def jsAddVV : JsVal → JsVal → JsVal
  | JsVal.num x, JsVal.num y => JsVal.num (x + y)
  | _, _ => JsVal.nan

/-- Sum of a list of JS values, starting from the number `0`. -/
def jsSumV (l : List JsVal) : JsVal :=
  l.foldl jsAddVV (JsVal.num 0)

/-- `v` is a non-negative number (used to state the canonical-ledger
invariant as a decidable hypothesis). -/
def isNonnegNum : JsVal → Bool
  | JsVal.num x => decide (0 ≤ x)
  | _ => false

/-- The `totals` object: member id string to JS value. -/
abbrev Totals := String → JsVal

/-- The `ledger` object: `ledger[debtor][creditor]`. -/
abbrev Ledger := String → String → JsVal

/-- Assignment `totals[k] = v`. -/
def updT (t : Totals) (k : String) (v : JsVal) : Totals :=
  fun x => if x = k then v else t x

/-- Assignment `ledger[a][b] = v`. -/
def updL (L : Ledger) (a b : String) (v : JsVal) : Ledger :=
  fun x y => if x = a ∧ y = b then v else L x y

/-- Step 2 of the query: `totals = Object.fromEntries(ids.map(id => [id, 0]))`.
Keys outside `ids` are absent, i.e. `undefined`. -/
def initTotals (ids : List String) : Totals :=
  fun x => if x ∈ ids then JsVal.num 0 else JsVal.undef

/-- Step 2 of the query: `ledger[a][b] = 0` for all `a ≠ b` in `ids`;
every other cell (diagonal included) is an absent key. -/
def initLedger (ids : List String) : Ledger :=
  fun a b => if a ∈ ids ∧ b ∈ ids ∧ a ≠ b then JsVal.num 0 else JsVal.undef

/-- One element of `exp.splits`: `{userId, amount, paid}`. -/
structure Split where
  userId : String
  amount : ℚ
  paid : Bool
deriving DecidableEq

/-- An expense document: `{paidByUserId, splits, groupId}` (the other
fields of the document do not enter the computation). -/
structure Expense where
  paidByUserId : String
  splits : List Split
  groupId : String
deriving DecidableEq

/-- A settlement document: `{paidByUserId, receivedByUserId, amount, groupId}`. -/
structure Settlement where
  paidByUserId : String
  receivedByUserId : String
  amount : ℚ
  groupId : String
deriving DecidableEq

/-- The mutable state of the computation: the `totals` and `ledger` objects. -/
structure St where
  totals : Totals
  ledger : Ledger

/-- Fold a throwing loop body over a list: the JS `for` loop where an
iteration may throw, in which case the whole query aborts. -/
def foldExceptSt {α : Type} (f : St → α → Except Unit St) : St → List α → Except Unit St
  | st, [] => Except.ok st
  | st, a :: l =>
    match f st a with
    | Except.error e => Except.error e
    | Except.ok st1 => foldExceptSt f st1 l

/-- Step 3 loop body, one split of one expense:
`if (split.userId === payer || split.paid) continue;
 totals[payer] += amt; totals[debtor] -= amt; ledger[debtor][payer] += amt;`
The last statement throws a `TypeError` when `ledger[debtor]` is a
missing row, i.e. when the debtor is not in `ids`. -/
def applySplit (ids : List String) (payer : String) (st : St) (s : Split) :
    Except Unit St :=
  if s.userId = payer ∨ s.paid = true then Except.ok st
  else
    let amt := s.amount
    let t1 := updT st.totals payer (jsAdd (st.totals payer) amt)
    let t2 := updT t1 s.userId (jsSub (t1 s.userId) amt)
    if s.userId ∈ ids then
      Except.ok
        { totals := t2
          ledger := updL st.ledger s.userId payer
            (jsAdd (st.ledger s.userId payer) amt) }
    else Except.error ()

/-- Step 3, one expense: iterate `applySplit` over `exp.splits`. -/
def applyExpense (ids : List String) (st : St) (e : Expense) : Except Unit St :=
  foldExceptSt (applySplit ids e.paidByUserId) st e.splits

/-- Step 4 loop body, one settlement:
`totals[s.paidByUserId] += s.amount; totals[s.receivedByUserId] -= s.amount;
 ledger[s.paidByUserId][s.receivedByUserId] -= s.amount;`
The ledger write throws when the payer row is missing (payer not in `ids`);
a receiver key missing from an existing row degrades to `NaN` instead. -/
def applySettlement (ids : List String) (st : St) (s : Settlement) :
    Except Unit St :=
  let t1 := updT st.totals s.paidByUserId (jsAdd (st.totals s.paidByUserId) s.amount)
  let t2 := updT t1 s.receivedByUserId (jsSub (t1 s.receivedByUserId) s.amount)
  if s.paidByUserId ∈ ids then
    Except.ok
      { totals := t2
        ledger := updL st.ledger s.paidByUserId s.receivedByUserId
          (jsSub (st.ledger s.paidByUserId s.receivedByUserId) s.amount) }
  else Except.error ()

/-- Step 5 inner loop body for the ordered pair `(a, b)`:
`if (a >= b) return; const diff = ledger[a][b] - ledger[b][a]; ...`. -/
def netPair (L : Ledger) (a b : String) : Ledger :=
  if b ≤ a then L
  else if jsGt0 (jsSubV (L a b) (L b a)) then
    updL (updL L a b (jsSubV (L a b) (L b a))) b a (JsVal.num 0)
  else if jsLt0 (jsSubV (L a b) (L b a)) then
    updL (updL L b a (jsNeg (jsSubV (L a b) (L b a)))) a b (JsVal.num 0)
  else
    updL (updL L b a (JsVal.num 0)) a b (JsVal.num 0)

/-- Step 5: `ids.forEach(a => ids.forEach(b => ...))` over the ledger. -/
def netLedger (ids : List String) (L : Ledger) : Ledger :=
  List.foldl (fun acc a => List.foldl (fun acc2 b => netPair acc2 a b) acc ids) L ids

/-- The canonical value the netting pass leaves in cell `(x, y)` of a
visited pair: `max (ledger[x][y] - ledger[y][x]) 0` for numeric cells,
and `0` when the difference is not a number. -/
def pointwiseNet (L : Ledger) (x y : String) : JsVal :=
  match jsSubV (L x y) (L y x) with
  | JsVal.num q => JsVal.num (max q 0)
  | _ => JsVal.num 0

/-- Netting as a fold over an explicit list of ordered pairs; the nested
loops of `netLedger` traverse exactly the product list `prodList ids ids`. -/
def pairFold (L : Ledger) (ps : List (String × String)) : Ledger :=
  ps.foldl (fun acc p => netPair acc p.1 p.2) L

/-- The list of ordered pairs traversed by nested `forEach` loops. -/
def prodList : List String → List String → List (String × String)
  | [], _ => []
  | a :: as, l2 => l2.map (fun b => (a, b)) ++ prodList as l2

/-- A pair actually processed by the netting body (not skipped by
`if (a >= b) return`). -/
def activeP (p : String × String) : Bool :=
  decide (p.1 < p.2)

/-- One element of the `balances` array of the response (step 6):
`{...m, totalBalance, owes, owedBy}`. Member name and image are inert
pass-through fields and are not modelled. `owes` keeps the raw entry
values, which are exactly the strictly positive cells of the row. -/
structure MemberBalance where
  id : String
  totalBalance : JsVal
  owes : List (String × JsVal)
  owedBy : List (String × JsVal)
deriving DecidableEq

/-- Step 6: shape the per-member balances.
In the source, `owes` is `Object.entries(ledger[m.id]).filter(([,v]) => v > 0)`:
the keys of row `m.id` are the other ids (inserted at step 2, in `ids`
order) plus possibly later-created keys, but every later-created key
(a non-member creditor, or the diagonal key from a self-settlement)
only ever holds `NaN`, which fails `v > 0`; so filtering `ids` by
`v > 0` enumerates exactly the same entries. `owedBy` is literally
`ids.filter(other => ledger[other][m.id] > 0)` in the source. -/
def projectBalances (ids : List String) (t : Totals) (L : Ledger) :
    List MemberBalance :=
  ids.map (fun m =>
    { id := m
      totalBalance := t m
      owes := (ids.filter (fun b => jsGt0 (L m b))).map (fun b => (b, L m b))
      owedBy := (ids.filter (fun other => jsGt0 (L other m))).map
        (fun other => (other, L other m)) })

/-- Steps 2-4: initialize the ledgers, apply all expenses, then all
settlements; any JS `TypeError` aborts the query. -/
def buildState (ids : List String) (expenses : List Expense)
    (settlements : List Settlement) : Except Unit St :=
  match foldExceptSt (applyExpense ids) ⟨initTotals ids, initLedger ids⟩ expenses with
  | Except.error e => Except.error e
  | Except.ok st1 => foldExceptSt (applySettlement ids) st1 settlements

/-- Steps 2-6: the whole balance computation of `getGroupExpenses`,
returning the `balances` array of the response. -/
def computeBalances (ids : List String) (expenses : List Expense)
    (settlements : List Settlement) : Except Unit (List MemberBalance) :=
  match buildState ids expenses settlements with
  | Except.error e => Except.error e
  | Except.ok st =>
    Except.ok (projectBalances ids st.totals (netLedger ids st.ledger))

/-- A group document: its id and the userIds of `group.members`
(member roles do not enter this query's logic). -/
structure GroupDoc where
  gid : String
  members : List String
deriving DecidableEq

/-- The backing store visible to the query: the groups, expenses and
settlements tables. -/
structure DB where
  groups : List GroupDoc
  expenses : List Expense
  settlements : List Settlement

/-- The full handler of the `getGroupExpenses` query:
fetch the group (`ctx.db.get`), throw `Group not found` when absent,
throw `You are not a member of this group` when the current user is not
in `group.members`, otherwise fetch the group's expenses and settlements
and compute the balances. A `TypeError` thrown by the computation
surfaces as an error as well. The modelled result is the `balances`
part of the response; the remaining response fields (group info, member
details, raw expense and settlement lists, lookup map) are verbatim
echoes of the inputs. -/
def getGroupExpenses (db : DB) (currentUserId : String) (groupId : String) :
    Except String (List MemberBalance) :=
  match db.groups.find? (fun g => g.gid == groupId) with
  | none => Except.error "Group not found"
  | some group =>
    if group.members.any (fun m => m == currentUserId) then
      match computeBalances group.members
          (db.expenses.filter (fun e => e.groupId == groupId))
          (db.settlements.filter (fun s => s.groupId == groupId)) with
      | Except.ok balances => Except.ok balances
      | Except.error _ => Except.error "TypeError"
    else Except.error "You are not a member of this group"

/-- Sum of the rational readings of `totals` over the member list. -/
def sumq (ids : List String) (t : Totals) : ℚ :=
  (ids.map (fun i => jsq (t i))).sum

/-- Every member's `totals` entry is a number. -/
def allNumOn (ids : List String) (t : Totals) : Prop :=
  ∀ i ∈ ids, ∃ q, t i = JsVal.num q

/-- `v` is not a number (it is `undefined` or `NaN`), hence fails `v > 0`. -/
def notNum (v : JsVal) : Prop :=
  v = JsVal.undef ∨ v = JsVal.nan

/-- Structural facts that hold of every state the computation reaches:
member totals are never `undefined` (they start at `0` and every write
stores an arithmetic result), and no diagonal ledger cell ever holds a
number (it starts absent and only a self-settlement can write it,
storing `NaN`). -/
def GoodSt (ids : List String) (st : St) : Prop :=
  (∀ x ∈ ids, st.totals x ≠ JsVal.undef) ∧ ∀ m, notNum (st.ledger m m)

/-- Two states that agree everywhere except possibly at the diagonal
ledger cell `(p, p)`, which is a non-number in both. -/
def RelDiag (p : String) (s1 s2 : St) : Prop :=
  s1.totals = s2.totals ∧
    (∀ x y, ¬(x = p ∧ y = p) → s1.ledger x y = s2.ledger x y) ∧
    notNum (s1.ledger p p) ∧ notNum (s2.ledger p p)


/-! ### Basic lemmas about object updates and the netting body -/

theorem updT_apply (t : Totals) (k : String) (v : JsVal) (x : String) :
    updT t k v x = if x = k then v else t x := rfl

theorem updL_apply (L : Ledger) (a b : String) (v : JsVal) (x y : String) :
    updL L a b v x y = if x = a ∧ y = b then v else L x y := rfl

theorem netPair_inactive {a b : String} (hact : ¬ a < b) (L : Ledger) :
    netPair L a b = L := by
  unfold netPair
  rw [if_pos (not_lt.mp hact)]

theorem netPair_frame (L : Ledger) {a b x y : String}
    (h1 : ¬(x = a ∧ y = b)) (h2 : ¬(x = b ∧ y = a)) :
    netPair L a b x y = L x y := by
  unfold netPair
  split_ifs with hba hg hl
  · rfl
  · simp only [updL]
    rw [if_neg h2, if_neg h1]
  · simp only [updL]
    rw [if_neg h1, if_neg h2]
  · simp only [updL]
    rw [if_neg h1, if_neg h2]

theorem pointwiseNet_congr {L1 L2 : Ledger} {x y : String}
    (h1 : L1 x y = L2 x y) (h2 : L1 y x = L2 y x) :
    pointwiseNet L1 x y = pointwiseNet L2 x y := by
  unfold pointwiseNet
  rw [h1, h2]

theorem netPair_cells (L : Ledger) {a b : String} (h : a < b) :
    netPair L a b a b = pointwiseNet L a b ∧
      netPair L a b b a = pointwiseNet L b a := by
  have hab : a ≠ b := ne_of_lt h
  have hba : b ≠ a := hab.symm
  unfold netPair pointwiseNet
  rw [if_neg (not_le.mpr h)]
  rcases hx : L a b with _ | _ | x <;> rcases hy : L b a with _ | _ | y <;>
    simp only [hx, hy, jsSubV, jsGt0, jsLt0, jsNeg]
  case num.num =>
    rcases lt_trichotomy x y with h1 | h1 | h1
    · have hg : ¬ (0 : ℚ) < x - y := by linarith
      have hl : (x - y : ℚ) < 0 := by linarith
      constructor <;>
        simp [updL, hab, hba, hg, hl, max_eq_right (by linarith : (x - y : ℚ) ≤ 0),
          max_eq_left (by linarith : (0 : ℚ) ≤ y - x)]
    · have hg : ¬ (0 : ℚ) < x - y := by simp [h1]
      have hl : ¬ (x - y : ℚ) < 0 := by simp [h1]
      constructor <;> simp [updL, hab, hba, hg, hl, h1]
    · have hg : (0 : ℚ) < x - y := by linarith
      constructor <;>
        simp [updL, hab, hba, hg, max_eq_left (by linarith : (0 : ℚ) ≤ x - y),
          max_eq_right (by linarith : (y - x : ℚ) ≤ 0)]
  all_goals constructor <;> simp [updL, hab, hba]

/-! ### The nested netting loops as a fold over the pair list -/

theorem pairFold_nil (L : Ledger) : pairFold L [] = L := rfl

theorem pairFold_cons (L : Ledger) (p : String × String) (ps : List (String × String)) :
    pairFold L (p :: ps) = pairFold (netPair L p.1 p.2) ps := rfl

theorem pairFold_append (L : Ledger) (l1 l2 : List (String × String)) :
    pairFold L (l1 ++ l2) = pairFold (pairFold L l1) l2 := by
  simp [pairFold, List.foldl_append]

theorem netLedger_eq_pairFold (ids : List String) (L : Ledger) :
    netLedger ids L = pairFold L (prodList ids ids) := by
  unfold netLedger
  suffices h : ∀ (l1 : List String) (L : Ledger),
      List.foldl (fun acc a => List.foldl (fun acc2 b => netPair acc2 a b) acc ids) L l1
        = pairFold L (prodList l1 ids) from h ids L
  intro l1
  induction l1 with
  | nil => intro L; rfl
  | cons a as ih =>
    intro L
    rw [List.foldl_cons, ih, prodList, pairFold_append]
    simp [pairFold, List.foldl_map]

theorem mem_prodList {l1 l2 : List String} {x y : String} :
    (x, y) ∈ prodList l1 l2 ↔ x ∈ l1 ∧ y ∈ l2 := by
  induction l1 with
  | nil => simp [prodList]
  | cons a as ih =>
    simp only [prodList, List.mem_append, List.mem_map, ih, List.mem_cons,
      Prod.mk.injEq]
    constructor
    · rintro (⟨b, hb, rfl, rfl⟩ | ⟨hx, hy⟩)
      · exact ⟨Or.inl rfl, hb⟩
      · exact ⟨Or.inr hx, hy⟩
    · rintro ⟨rfl | hx, hy⟩
      · exact Or.inl ⟨y, hy, rfl, rfl⟩
      · exact Or.inr ⟨hx, hy⟩

theorem nodup_prodList {l1 l2 : List String} (h1 : l1.Nodup) (h2 : l2.Nodup) :
    (prodList l1 l2).Nodup := by
  induction l1 with
  | nil => simp [prodList]
  | cons a as ih =>
    rw [prodList]
    rcases List.nodup_cons.mp h1 with ⟨ha, has⟩
    refine List.Nodup.append (h2.map ?_) (ih has) ?_
    · intro b1 b2 hb
      simpa using hb
    · intro p hp hq
      rcases List.mem_map.mp hp with ⟨b, _, rfl⟩
      exact ha (mem_prodList.mp hq).1

/-- Characterization of the netting fold: with pairwise-distinct active
pairs, every cell belonging to a visited unordered pair receives its
canonical value computed from the ORIGINAL ledger, and every other cell
is untouched. This is exactly the "visit each unordered pair once"
guarantee of the netting loop. -/
theorem pairFold_char :
    ∀ (ps : List (String × String)) (L : Ledger),
      (ps.filter activeP).Nodup →
      ∀ x y : String,
        pairFold L ps x y =
          if (x, y) ∈ ps.filter activeP ∨ (y, x) ∈ ps.filter activeP
          then pointwiseNet L x y
          else L x y := by
  intro ps
  induction ps with
  | nil =>
    intro L _ x y
    simp [pairFold]
  | cons p ps ih =>
    intro L hnd x y
    obtain ⟨a, b⟩ := p
    rw [pairFold_cons]
    by_cases hact : a < b
    · have hfil : ((a, b) :: ps).filter activeP = (a, b) :: ps.filter activeP := by
        simp [List.filter_cons, activeP, hact]
      rw [hfil] at hnd ⊢
      have hnotin : (a, b) ∉ ps.filter activeP := (List.nodup_cons.mp hnd).1
      have hnd2 : (ps.filter activeP).Nodup := (List.nodup_cons.mp hnd).2
      have key := ih (netPair L a b) hnd2 x y
      by_cases htail : (x, y) ∈ ps.filter activeP ∨ (y, x) ∈ ps.filter activeP
      · rw [key, if_pos htail,
          if_pos (htail.imp (List.mem_cons_of_mem _) (List.mem_cons_of_mem _))]
        have hne1 : ¬(x = a ∧ y = b) := by
          rintro ⟨rfl, rfl⟩
          rcases htail with hmem | hmem
          · exact hnotin hmem
          · have hx2 := (List.mem_filter.mp hmem).2
            simp only [activeP, decide_eq_true_eq] at hx2
            exact absurd hx2 (not_lt.mpr hact.le)
        have hne2 : ¬(x = b ∧ y = a) := by
          rintro ⟨rfl, rfl⟩
          rcases htail with hmem | hmem
          · have hx2 := (List.mem_filter.mp hmem).2
            simp only [activeP, decide_eq_true_eq] at hx2
            exact absurd hx2 (not_lt.mpr hact.le)
          · exact hnotin hmem
        exact pointwiseNet_congr (netPair_frame L hne1 hne2)
          (netPair_frame L (fun hc => hne2 ⟨hc.2, hc.1⟩) (fun hc => hne1 ⟨hc.2, hc.1⟩))
      · rw [key, if_neg htail]
        by_cases hhead : (x = a ∧ y = b) ∨ (x = b ∧ y = a)
        · have hcond : (x, y) ∈ (a, b) :: ps.filter activeP ∨
              (y, x) ∈ (a, b) :: ps.filter activeP := by
            rcases hhead with ⟨rfl, rfl⟩ | ⟨rfl, rfl⟩
            · exact Or.inl (List.mem_cons_self _ _)
            · exact Or.inr (List.mem_cons_self _ _)
          rw [if_pos hcond]
          rcases hhead with ⟨rfl, rfl⟩ | ⟨rfl, rfl⟩
          · exact (netPair_cells L hact).1
          · exact (netPair_cells L hact).2
        · push_neg at hhead
          have hcond : ¬((x, y) ∈ (a, b) :: ps.filter activeP ∨
              (y, x) ∈ (a, b) :: ps.filter activeP) := by
            rintro (hm | hm)
            · rcases List.mem_cons.mp hm with h1 | h1
              · rw [Prod.mk.injEq] at h1
                exact hhead.1 h1.1 h1.2
              · exact htail (Or.inl h1)
            · rcases List.mem_cons.mp hm with h1 | h1
              · rw [Prod.mk.injEq] at h1
                exact hhead.2 h1.2 h1.1
              · exact htail (Or.inr h1)
          rw [if_neg hcond]
          exact netPair_frame L (fun hc => hhead.1 hc.1 hc.2) (fun hc => hhead.2 hc.1 hc.2)
    · rw [netPair_inactive hact L]
      have hfil : ((a, b) :: ps).filter activeP = ps.filter activeP := by
        simp [List.filter_cons, activeP, hact]
      rw [hfil] at hnd ⊢
      exact ih L hnd x y

/-- The netting pass, in closed form at every visited cell: for distinct
members `a b` of a duplicate-free roster, the netted cell `(a, b)` is the
canonical value computed from the pre-netting ledger. -/
theorem netLedger_spec {ids : List String} (hn : ids.Nodup) (L : Ledger)
    {a b : String} (ha : a ∈ ids) (hb : b ∈ ids) (hab : a ≠ b) :
    netLedger ids L a b = pointwiseNet L a b := by
  rw [netLedger_eq_pairFold,
    pairFold_char (prodList ids ids) L ((nodup_prodList hn hn).filter _) a b]
  rw [if_pos]
  rcases lt_or_gt_of_ne hab with h | h
  · exact Or.inl (List.mem_filter.mpr
      ⟨mem_prodList.mpr ⟨ha, hb⟩, by simp [activeP, h]⟩)
  · exact Or.inr (List.mem_filter.mpr
      ⟨mem_prodList.mpr ⟨hb, ha⟩, by simp [activeP, h]⟩)

/-- Frame of the netting pass: cells with a non-member index, and every
diagonal cell, are untouched. -/
theorem netLedger_frame {ids : List String} (hn : ids.Nodup) (L : Ledger)
    {a b : String} (h : a ∉ ids ∨ b ∉ ids ∨ a = b) :
    netLedger ids L a b = L a b := by
  rw [netLedger_eq_pairFold,
    pairFold_char (prodList ids ids) L ((nodup_prodList hn hn).filter _) a b]
  rw [if_neg]
  rintro (hm | hm) <;>
    obtain ⟨hmem, hac⟩ := List.mem_filter.mp hm <;>
    obtain ⟨h1, h2⟩ := mem_prodList.mp hmem <;>
    simp only [activeP, decide_eq_true_eq] at hac
  · rcases h with h | h | h
    · exact h h1
    · exact h h2
    · exact absurd hac (by rw [h]; exact lt_irrefl b)
  · rcases h with h | h | h
    · exact h h2
    · exact h h1
    · exact absurd hac (by rw [h]; exact lt_irrefl b)

/-! ### Fold unrolling and conservation of the running totals -/

theorem foldExceptSt_nil {α : Type} (f : St → α → Except Unit St) (st : St) :
    foldExceptSt f st [] = Except.ok st := rfl

theorem foldExceptSt_cons_ok {α : Type} (f : St → α → Except Unit St) {st st1 : St}
    {a : α} (l : List α) (h : f st a = Except.ok st1) :
    foldExceptSt f st (a :: l) = foldExceptSt f st1 l := by
  rw [foldExceptSt, h]

theorem foldExceptSt_cons_err {α : Type} (f : St → α → Except Unit St) {st : St}
    {a : α} (l : List α) (h : f st a = Except.error ()) :
    foldExceptSt f st (a :: l) = Except.error () := by
  rw [foldExceptSt, h]

theorem foldExceptSt_append {α : Type} (f : St → α → Except Unit St) (st : St)
    (l1 l2 : List α) :
    foldExceptSt f st (l1 ++ l2) =
      match foldExceptSt f st l1 with
      | Except.error e => Except.error e
      | Except.ok st1 => foldExceptSt f st1 l2 := by
  induction l1 generalizing st with
  | nil => rfl
  | cons a l ih =>
    rw [List.cons_append]
    rcases h : f st a with e | st1
    · have h0 : f st a = Except.error () := by rw [h]
      rw [foldExceptSt_cons_err f (l ++ l2) h0, foldExceptSt_cons_err f l h0]
    · rw [foldExceptSt_cons_ok f (l ++ l2) h, foldExceptSt_cons_ok f l h]
      exact ih st1

theorem sumq_cons (a : String) (l : List String) (t : Totals) :
    sumq (a :: l) t = jsq (t a) + sumq l t := by
  simp [sumq]

theorem sumq_congr {l : List String} {t1 t2 : Totals} (h : ∀ i ∈ l, t1 i = t2 i) :
    sumq l t1 = sumq l t2 := by
  induction l with
  | nil => rfl
  | cons a l ih =>
    rw [sumq_cons, sumq_cons, h a (List.mem_cons_self _ _),
      ih (fun i hi => h i (List.mem_cons_of_mem _ hi))]

theorem sumq_updT {ids : List String} (hn : ids.Nodup) {k : String} (hk : k ∈ ids)
    (t : Totals) (v : JsVal) :
    sumq ids (updT t k v) = sumq ids t - jsq (t k) + jsq v := by
  induction ids with
  | nil => cases hk
  | cons a l ih =>
    rcases List.nodup_cons.mp hn with ⟨ha, hl⟩
    rcases List.mem_cons.mp hk with rfl | hk2
    · have h1 : updT t k v k = v := by simp [updT]
      have h2 : sumq l (updT t k v) = sumq l t := by
        refine sumq_congr (fun i hi => ?_)
        have hik : i ≠ k := by
          rintro rfl
          exact ha hi
        simp [updT, hik]
      rw [sumq_cons, sumq_cons, h1, h2]
      ring
    · have hak : a ≠ k := by
        rintro rfl
        exact ha hk2
      have h1 : updT t k v a = t a := by simp [updT, hak]
      rw [sumq_cons, sumq_cons, h1, ih hl hk2]
      ring

theorem allNumOn_updT {ids : List String} {t : Totals} (h : allNumOn ids t)
    {k : String} {v : JsVal} (hv : ∃ q, v = JsVal.num q) :
    allNumOn ids (updT t k v) := by
  intro i hi
  by_cases hik : i = k
  · subst hik
    simpa [updT] using hv
  · simpa [updT, hik] using h i hi

theorem applySplit_conserve {ids : List String} (hn : ids.Nodup) {payer : String}
    (hp : payer ∈ ids) {s : Split} (hu : s.userId ∈ ids) {st : St}
    (hall : allNumOn ids st.totals) :
    ∃ st', applySplit ids payer st s = Except.ok st' ∧
      allNumOn ids st'.totals ∧ sumq ids st'.totals = sumq ids st.totals := by
  by_cases hskip : s.userId = payer ∨ s.paid = true
  · exact ⟨st, by simp [applySplit, hskip], hall, rfl⟩
  · obtain ⟨q, hq⟩ := hall payer hp
    have h1 : allNumOn ids (updT st.totals payer (jsAdd (st.totals payer) s.amount)) :=
      allNumOn_updT hall ⟨q + s.amount, by rw [hq]; rfl⟩
    obtain ⟨r, hr⟩ := h1 s.userId hu
    refine ⟨⟨updT (updT st.totals payer (jsAdd (st.totals payer) s.amount)) s.userId
        (jsSub (updT st.totals payer (jsAdd (st.totals payer) s.amount) s.userId) s.amount),
      updL st.ledger s.userId payer (jsAdd (st.ledger s.userId payer) s.amount)⟩,
      ?_, ?_, ?_⟩
    · simp [applySplit, hskip, hu]
    · exact allNumOn_updT h1 ⟨r - s.amount, by rw [hr]; rfl⟩
    · show sumq ids (updT (updT st.totals payer (jsAdd (st.totals payer) s.amount)) s.userId
        (jsSub (updT st.totals payer (jsAdd (st.totals payer) s.amount) s.userId) s.amount))
          = sumq ids st.totals
      rw [sumq_updT hn hu, sumq_updT hn hp, hr, hq]
      simp only [jsq, jsAdd, jsSub]
      ring

theorem splits_fold_conserve {ids : List String} (hn : ids.Nodup) {payer : String}
    (hp : payer ∈ ids) :
    ∀ (sl : List Split), (∀ s ∈ sl, s.userId ∈ ids) → ∀ st : St, allNumOn ids st.totals →
      ∃ st', foldExceptSt (applySplit ids payer) st sl = Except.ok st' ∧
        allNumOn ids st'.totals ∧ sumq ids st'.totals = sumq ids st.totals := by
  intro sl
  induction sl with
  | nil => exact fun _ st hall => ⟨st, rfl, hall, rfl⟩
  | cons s sl ih =>
    intro hsv st hall
    obtain ⟨st1, hok, hall1, hsum1⟩ :=
      applySplit_conserve hn hp (hsv s (List.mem_cons_self _ _)) hall
    obtain ⟨st2, hok2, hall2, hsum2⟩ :=
      ih (fun x hx => hsv x (List.mem_cons_of_mem _ hx)) st1 hall1
    exact ⟨st2, by rw [foldExceptSt_cons_ok _ _ hok]; exact hok2, hall2,
      by rw [hsum2, hsum1]⟩

theorem applyExpense_conserve {ids : List String} (hn : ids.Nodup) {e : Expense}
    (hp : e.paidByUserId ∈ ids) (hsv : ∀ s ∈ e.splits, s.userId ∈ ids) (st : St)
    (hall : allNumOn ids st.totals) :
    ∃ st', applyExpense ids st e = Except.ok st' ∧
      allNumOn ids st'.totals ∧ sumq ids st'.totals = sumq ids st.totals :=
  splits_fold_conserve hn hp e.splits hsv st hall

theorem expenses_fold_conserve {ids : List String} (hn : ids.Nodup) :
    ∀ (es : List Expense),
      (∀ e ∈ es, e.paidByUserId ∈ ids ∧ ∀ s ∈ e.splits, s.userId ∈ ids) →
      ∀ st : St, allNumOn ids st.totals →
      ∃ st', foldExceptSt (applyExpense ids) st es = Except.ok st' ∧
        allNumOn ids st'.totals ∧ sumq ids st'.totals = sumq ids st.totals := by
  intro es
  induction es with
  | nil => exact fun _ st hall => ⟨st, rfl, hall, rfl⟩
  | cons e es ih =>
    intro hv st hall
    obtain ⟨he1, he2⟩ := hv e (List.mem_cons_self _ _)
    obtain ⟨st1, hok, hall1, hsum1⟩ := applyExpense_conserve hn he1 he2 st hall
    obtain ⟨st2, hok2, hall2, hsum2⟩ :=
      ih (fun x hx => hv x (List.mem_cons_of_mem _ hx)) st1 hall1
    exact ⟨st2, by rw [foldExceptSt_cons_ok _ _ hok]; exact hok2, hall2,
      by rw [hsum2, hsum1]⟩

theorem applySettlement_conserve {ids : List String} (hn : ids.Nodup) {s : Settlement}
    (hp : s.paidByUserId ∈ ids) (hr : s.receivedByUserId ∈ ids) (st : St)
    (hall : allNumOn ids st.totals) :
    ∃ st', applySettlement ids st s = Except.ok st' ∧
      allNumOn ids st'.totals ∧ sumq ids st'.totals = sumq ids st.totals := by
  obtain ⟨q, hq⟩ := hall s.paidByUserId hp
  have h1 : allNumOn ids
      (updT st.totals s.paidByUserId (jsAdd (st.totals s.paidByUserId) s.amount)) :=
    allNumOn_updT hall ⟨q + s.amount, by rw [hq]; rfl⟩
  obtain ⟨r, hrr⟩ := h1 s.receivedByUserId hr
  refine ⟨⟨updT (updT st.totals s.paidByUserId (jsAdd (st.totals s.paidByUserId) s.amount))
      s.receivedByUserId (jsSub (updT st.totals s.paidByUserId
        (jsAdd (st.totals s.paidByUserId) s.amount) s.receivedByUserId) s.amount),
    updL st.ledger s.paidByUserId s.receivedByUserId
      (jsSub (st.ledger s.paidByUserId s.receivedByUserId) s.amount)⟩, ?_, ?_, ?_⟩
  · simp [applySettlement, hp]
  · exact allNumOn_updT h1 ⟨r - s.amount, by rw [hrr]; rfl⟩
  · show sumq ids (updT (updT st.totals s.paidByUserId
        (jsAdd (st.totals s.paidByUserId) s.amount)) s.receivedByUserId
        (jsSub (updT st.totals s.paidByUserId
          (jsAdd (st.totals s.paidByUserId) s.amount) s.receivedByUserId) s.amount))
      = sumq ids st.totals
    rw [sumq_updT hn hr, sumq_updT hn hp, hrr, hq]
    simp only [jsq, jsAdd, jsSub]
    ring

theorem settlements_fold_conserve {ids : List String} (hn : ids.Nodup) :
    ∀ (ss : List Settlement),
      (∀ s ∈ ss, s.paidByUserId ∈ ids ∧ s.receivedByUserId ∈ ids) →
      ∀ st : St, allNumOn ids st.totals →
      ∃ st', foldExceptSt (applySettlement ids) st ss = Except.ok st' ∧
        allNumOn ids st'.totals ∧ sumq ids st'.totals = sumq ids st.totals := by
  intro ss
  induction ss with
  | nil => exact fun _ st hall => ⟨st, rfl, hall, rfl⟩
  | cons s ss ih =>
    intro hs st hall
    obtain ⟨hs1, hs2⟩ := hs s (List.mem_cons_self _ _)
    obtain ⟨st1, hok, hall1, hsum1⟩ := applySettlement_conserve hn hs1 hs2 st hall
    obtain ⟨st2, hok2, hall2, hsum2⟩ :=
      ih (fun x hx => hs x (List.mem_cons_of_mem _ hx)) st1 hall1
    exact ⟨st2, by rw [foldExceptSt_cons_ok _ _ hok]; exact hok2, hall2,
      by rw [hsum2, hsum1]⟩

theorem allNum_init (ids : List String) : allNumOn ids (initTotals ids) :=
  fun i hi => ⟨0, by simp [initTotals, hi]⟩

theorem sumq_init (ids : List String) : sumq ids (initTotals ids) = 0 := by
  refine List.sum_eq_zero (fun x hx => ?_)
  rcases List.mem_map.mp hx with ⟨i, hi, rfl⟩
  simp [initTotals, hi, jsq]

theorem buildState_conserve {ids : List String} {es : List Expense}
    {ss : List Settlement} (hn : ids.Nodup)
    (hv : ∀ e ∈ es, e.paidByUserId ∈ ids ∧ ∀ s ∈ e.splits, s.userId ∈ ids)
    (hs : ∀ s ∈ ss, s.paidByUserId ∈ ids ∧ s.receivedByUserId ∈ ids) :
    ∃ st, buildState ids es ss = Except.ok st ∧ allNumOn ids st.totals ∧
      sumq ids st.totals = 0 := by
  obtain ⟨st1, h1, hall1, hsum1⟩ := expenses_fold_conserve hn es hv
    ⟨initTotals ids, initLedger ids⟩ (allNum_init ids)
  obtain ⟨st2, h2, hall2, hsum2⟩ := settlements_fold_conserve hn ss hs st1 hall1
  refine ⟨st2, ?_, hall2, by rw [hsum2, hsum1]; exact sumq_init ids⟩
  unfold buildState
  rw [h1]
  exact h2

theorem jsSumV_num {l : List JsVal} (h : ∀ v ∈ l, ∃ q, v = JsVal.num q) :
    jsSumV l = JsVal.num ((l.map jsq).sum) := by
  suffices haux : ∀ (l : List JsVal) (a : ℚ), (∀ v ∈ l, ∃ q, v = JsVal.num q) →
      l.foldl jsAddVV (JsVal.num a) = JsVal.num (a + (l.map jsq).sum) by
    have := haux l 0 h
    simpa [jsSumV] using this
  intro l
  induction l with
  | nil =>
    intro a _
    simp
  | cons v l ih =>
    intro a hv
    obtain ⟨q, rfl⟩ := hv v (List.mem_cons_self _ _)
    rw [List.foldl_cons,
      show jsAddVV (JsVal.num a) (JsVal.num q) = JsVal.num (a + q) from rfl,
      ih (a + q) (fun w hw => hv w (List.mem_cons_of_mem _ hw))]
    simp only [List.map_cons, List.sum_cons, jsq]
    congr 1
    ring

theorem projectBalances_totals (ids : List String) (t : Totals) (L : Ledger) :
    (projectBalances ids t L).map (fun b => b.totalBalance) = ids.map t := by
  simp [projectBalances, List.map_map, Function.comp]

theorem projectBalances_id_totals (ids : List String) (t : Totals) (L : Ledger) :
    (projectBalances ids t L).map (fun b => (b.id, b.totalBalance))
      = ids.map (fun i => (i, t i)) := by
  simp [projectBalances, List.map_map, Function.comp]

/-! ### Canonical shape of a netted pair -/

theorem pointwiseNet_pair (L : Ledger) (x y : String) :
    ∃ q r, pointwiseNet L x y = JsVal.num q ∧ pointwiseNet L y x = JsVal.num r ∧
      0 ≤ q ∧ 0 ≤ r ∧ (0 < q → r = 0) ∧ (0 < r → q = 0) := by
  unfold pointwiseNet
  rcases hxy : L x y with _ | _ | u <;> rcases hyx : L y x with _ | _ | v <;>
    simp only [jsSubV]
  case num.num =>
    refine ⟨max (u - v) 0, max (v - u) 0, rfl, rfl, le_max_right _ _,
      le_max_right _ _, ?_, ?_⟩
    · intro hq
      have huv : 0 < u - v := by
        rcases le_or_lt (u - v) 0 with h | h
        · rw [max_eq_right h] at hq
          exact absurd hq (lt_irrefl 0)
        · exact h
      exact max_eq_right (by linarith : v - u ≤ 0)
    · intro hr
      have hvu : 0 < v - u := by
        rcases le_or_lt (v - u) 0 with h | h
        · rw [max_eq_right h] at hr
          exact absurd hr (lt_irrefl 0)
        · exact h
      exact max_eq_right (by linarith : u - v ≤ 0)
  all_goals exact ⟨0, 0, rfl, rfl, le_refl 0, le_refl 0, fun h => rfl, fun h => rfl⟩

/-! ### Claim theorems -/

/-- C1: conservation. For every duplicate-free member roster and every
list of expenses and settlements whose payer, split-member and receiver
ids all belong to the roster, the computation succeeds and the sum over
all members of the computed net total is the number `0`, both
immediately after applying expenses and settlements (pre-netting state
`st`) and in the final output (the `totalBalance` fields of the
`balances` array). -/
theorem c1_conservation (ids : List String) (es : List Expense) (ss : List Settlement)
    (hn : ids.Nodup)
    (hv : ∀ e ∈ es, e.paidByUserId ∈ ids ∧ ∀ s ∈ e.splits, s.userId ∈ ids)
    (hs : ∀ s ∈ ss, s.paidByUserId ∈ ids ∧ s.receivedByUserId ∈ ids) :
    ∃ st bal, buildState ids es ss = Except.ok st ∧
      jsSumV (ids.map st.totals) = JsVal.num 0 ∧
      computeBalances ids es ss = Except.ok bal ∧
      jsSumV (bal.map (fun b => b.totalBalance)) = JsVal.num 0 := by
  obtain ⟨st, hok, hall, hsum⟩ := buildState_conserve hn hv hs
  have hnum : ∀ v ∈ ids.map st.totals, ∃ q, v = JsVal.num q := by
    intro v hv2
    rcases List.mem_map.mp hv2 with ⟨i, hi, rfl⟩
    exact hall i hi
  have hsumv : jsSumV (ids.map st.totals) = JsVal.num 0 := by
    rw [jsSumV_num hnum, List.map_map]
    exact congrArg JsVal.num hsum
  refine ⟨st, projectBalances ids st.totals (netLedger ids st.ledger), hok, hsumv, ?_, ?_⟩
  · unfold computeBalances
    rw [hok]
  · rw [projectBalances_totals]
    exact hsumv

theorem c1_conservation_witness :
    ∃ st bal,
      buildState ["alice", "bob"] [⟨"alice", [⟨"bob", 10, false⟩], "g1"⟩]
        [⟨"bob", "alice", 4, "g1"⟩] = Except.ok st ∧
      jsSumV (["alice", "bob"].map st.totals) = JsVal.num 0 ∧
      computeBalances ["alice", "bob"] [⟨"alice", [⟨"bob", 10, false⟩], "g1"⟩]
        [⟨"bob", "alice", 4, "g1"⟩] = Except.ok bal ∧
      jsSumV (bal.map (fun b => b.totalBalance)) = JsVal.num 0 :=
  c1_conservation ["alice", "bob"] [⟨"alice", [⟨"bob", 10, false⟩], "g1"⟩]
    [⟨"bob", "alice", 4, "g1"⟩] (by decide) (by decide) (by decide)

/-- C2: canonical single direction. For every valid input (duplicate-free
roster, all referenced ids in the roster) the computation reaches a
pre-netting state, and after the netting pass, for every ordered pair of
distinct members both cells are non-negative numbers, they are never
both positive, and a positive cell forces the opposite cell to be `0`. -/
theorem c2_canonical_direction (ids : List String) (es : List Expense)
    (ss : List Settlement) (hn : ids.Nodup)
    (hv : ∀ e ∈ es, e.paidByUserId ∈ ids ∧ ∀ s ∈ e.splits, s.userId ∈ ids)
    (hs : ∀ s ∈ ss, s.paidByUserId ∈ ids ∧ s.receivedByUserId ∈ ids) :
    ∃ st, buildState ids es ss = Except.ok st ∧
      ∀ a ∈ ids, ∀ b ∈ ids, a ≠ b →
        ∃ q r, netLedger ids st.ledger a b = JsVal.num q ∧
          netLedger ids st.ledger b a = JsVal.num r ∧
          0 ≤ q ∧ 0 ≤ r ∧ ¬(0 < q ∧ 0 < r) ∧ (0 < q → r = 0) ∧ (0 < r → q = 0) := by
  obtain ⟨st, hok, -, -⟩ := buildState_conserve hn hv hs
  refine ⟨st, hok, fun a ha b hb hab => ?_⟩
  obtain ⟨q, r, h1, h2, hq, hr, hqr, hrq⟩ := pointwiseNet_pair st.ledger a b
  refine ⟨q, r, ?_, ?_, hq, hr, ?_, hqr, hrq⟩
  · rw [netLedger_spec hn st.ledger ha hb hab]
    exact h1
  · rw [netLedger_spec hn st.ledger hb ha hab.symm]
    exact h2
  · rintro ⟨h3, h4⟩
    rw [hqr h3] at h4
    exact lt_irrefl 0 h4

theorem c2_canonical_direction_witness :
    ∃ st,
      buildState ["ann", "bea"] [⟨"ann", [⟨"bea", 7, false⟩], "g2"⟩]
        [⟨"bea", "ann", 9, "g2"⟩] = Except.ok st ∧
      ∀ a ∈ ["ann", "bea"], ∀ b ∈ ["ann", "bea"], a ≠ b →
        ∃ q r, netLedger ["ann", "bea"] st.ledger a b = JsVal.num q ∧
          netLedger ["ann", "bea"] st.ledger b a = JsVal.num r ∧
          0 ≤ q ∧ 0 ≤ r ∧ ¬(0 < q ∧ 0 < r) ∧ (0 < q → r = 0) ∧ (0 < r → q = 0) :=
  c2_canonical_direction ["ann", "bea"] [⟨"ann", [⟨"bea", 7, false⟩], "g2"⟩]
    [⟨"bea", "ann", 9, "g2"⟩] (by decide) (by decide) (by decide)

/-- C3: netting idempotence. For every ledger that already satisfies the
canonical single-direction invariant on a duplicate-free roster (for
each ordered pair of distinct members the cell is a non-negative number
and a positive cell forces the opposite cell to be `0`), running the
netting pass leaves every ledger entry unchanged. -/
theorem c3_netting_idempotent (ids : List String) (L : Ledger) (hn : ids.Nodup)
    (hcan : ∀ a ∈ ids, ∀ b ∈ ids, a ≠ b →
      isNonnegNum (L a b) = true ∧ (jsGt0 (L a b) = true → L b a = JsVal.num 0)) :
    ∀ a b, netLedger ids L a b = L a b := by
  intro a b
  by_cases hmem : a ∈ ids ∧ b ∈ ids ∧ a ≠ b
  · obtain ⟨ha, hb, hab⟩ := hmem
    rw [netLedger_spec hn L ha hb hab]
    obtain ⟨h1, h2⟩ := hcan a ha b hb hab
    obtain ⟨h3, h4⟩ := hcan b hb a ha hab.symm
    rcases hq : L a b with _ | _ | q
    · rw [hq] at h1
      simp [isNonnegNum] at h1
    · rw [hq] at h1
      simp [isNonnegNum] at h1
    · rcases hr : L b a with _ | _ | r
      · rw [hr] at h3
        simp [isNonnegNum] at h3
      · rw [hr] at h3
        simp [isNonnegNum] at h3
      · rw [hq] at h1 h2
        rw [hr] at h2 h3
        have hq0 : 0 ≤ q := by simpa [isNonnegNum] using h1
        have hr0 : 0 ≤ r := by simpa [isNonnegNum] using h3
        unfold pointwiseNet
        rw [hq, hr]
        simp only [jsSubV]
        rcases lt_or_eq_of_le hq0 with hqpos | hqz
        · have hrz : JsVal.num r = JsVal.num 0 := h2 (by simp [jsGt0, hqpos])
          have hr0z : r = 0 := by injection hrz
          rw [hr0z]
          have h5 : max q 0 = q := max_eq_left hq0
          simp [h5]
        · rw [← hqz]
          have h5 : max (-r) 0 = 0 := max_eq_right (neg_nonpos.mpr hr0)
          simp [h5]
  · apply netLedger_frame hn
    by_cases ha : a ∈ ids
    · by_cases hb : b ∈ ids
      · refine Or.inr (Or.inr ?_)
        by_contra hne
        exact hmem ⟨ha, hb, hne⟩
      · exact Or.inr (Or.inl hb)
    · exact Or.inl ha

theorem c3_netting_idempotent_witness :
    netLedger ["u", "v"]
        (fun a b => if a = "u" ∧ b = "v" then JsVal.num 2 else JsVal.num 0) "u" "v"
      = (fun a b : String =>
          if a = "u" ∧ b = "v" then JsVal.num 2 else JsVal.num 0) "u" "v" :=
  c3_netting_idempotent ["u", "v"]
    (fun a b => if a = "u" ∧ b = "v" then JsVal.num 2 else JsVal.num 0)
    (by decide) (by decide) "u" "v"

/-- C9: netting frames the net totals. The netting pass (step 5) writes
only the pairwise ledger; the `totalBalance` column of the final output
is exactly the `totals` map of the pre-netting state, member by member. -/
theorem c9_totals_frame (ids : List String) (es : List Expense) (ss : List Settlement)
    (st : St) (h : buildState ids es ss = Except.ok st) :
    ∃ bal, computeBalances ids es ss = Except.ok bal ∧
      bal.map (fun b => (b.id, b.totalBalance)) = ids.map (fun i => (i, st.totals i)) := by
  refine ⟨projectBalances ids st.totals (netLedger ids st.ledger), ?_,
    projectBalances_id_totals ids st.totals (netLedger ids st.ledger)⟩
  unfold computeBalances
  rw [h]

theorem c9_totals_frame_witness :
    ∃ bal, computeBalances ["amy"] [] [] = Except.ok bal ∧
      bal.map (fun b => (b.id, b.totalBalance))
        = ["amy"].map (fun i => (i, (St.mk (initTotals ["amy"]) (initLedger ["amy"])).totals i)) :=
  c9_totals_frame ["amy"] [] [] (St.mk (initTotals ["amy"]) (initLedger ["amy"])) rfl

/-- C10: netting preserves the pairwise net debt. For distinct members
`a b` of a duplicate-free roster whose two directed cells are numbers,
the netting pass leaves `ledger[a][b] - ledger[b][a]` unchanged: the two
cells become `max (x - y) 0` and `max (y - x) 0`, whose difference is
the original `x - y`. -/
theorem c10_net_preserves_pairwise (ids : List String) (L : Ledger) (a b : String)
    (x y : ℚ) (hn : ids.Nodup) (ha : a ∈ ids) (hb : b ∈ ids) (hab : a ≠ b)
    (hx : L a b = JsVal.num x) (hy : L b a = JsVal.num y) :
    netLedger ids L a b = JsVal.num (max (x - y) 0) ∧
      netLedger ids L b a = JsVal.num (max (y - x) 0) ∧
      jsSubV (netLedger ids L a b) (netLedger ids L b a) = jsSubV (L a b) (L b a) := by
  have h1 : netLedger ids L a b = JsVal.num (max (x - y) 0) := by
    rw [netLedger_spec hn L ha hb hab]
    unfold pointwiseNet
    rw [hx, hy]
    rfl
  have h2 : netLedger ids L b a = JsVal.num (max (y - x) 0) := by
    rw [netLedger_spec hn L hb ha hab.symm]
    unfold pointwiseNet
    rw [hy, hx]
    rfl
  refine ⟨h1, h2, ?_⟩
  rw [h1, h2, hx, hy]
  simp only [jsSubV]
  congr 1
  rcases le_total x y with h | h
  · rw [max_eq_right (by linarith : x - y ≤ 0), max_eq_left (by linarith : 0 ≤ y - x)]
    ring
  · rw [max_eq_left (by linarith : 0 ≤ x - y), max_eq_right (by linarith : y - x ≤ 0)]
    ring

theorem c10_net_preserves_pairwise_witness :
    netLedger ["s", "t"]
        (fun u v => if u = "s" ∧ v = "t" then JsVal.num 3 else JsVal.num 8) "s" "t"
      = JsVal.num (max (3 - 8) 0) ∧
    netLedger ["s", "t"]
        (fun u v => if u = "s" ∧ v = "t" then JsVal.num 3 else JsVal.num 8) "t" "s"
      = JsVal.num (max (8 - 3) 0) ∧
    jsSubV
        (netLedger ["s", "t"]
          (fun u v => if u = "s" ∧ v = "t" then JsVal.num 3 else JsVal.num 8) "s" "t")
        (netLedger ["s", "t"]
          (fun u v => if u = "s" ∧ v = "t" then JsVal.num 3 else JsVal.num 8) "t" "s")
      = jsSubV
        ((fun u v : String => if u = "s" ∧ v = "t" then JsVal.num 3 else JsVal.num 8) "s" "t")
        ((fun u v : String => if u = "s" ∧ v = "t" then JsVal.num 3 else JsVal.num 8) "t" "s") :=
  c10_net_preserves_pairwise ["s", "t"]
    (fun u v => if u = "s" ∧ v = "t" then JsVal.num 3 else JsVal.num 8) "s" "t" 3 8
    (by decide) (by decide) (by decide) (by decide) (by decide) (by decide)

/-- C6: overpayment reverses the debt direction. For distinct members
`a b` of a duplicate-free roster with recorded directed debt
`ledger[b][a] = d ≥ 0` and `ledger[a][b] = 0`, applying the single
settlement `{payer: b, receiver: a, amount}` with `amount > d` leaves
the negative intermediate entry `d - amount` in `ledger[b][a]`, and the
netting pass turns it into the positive reverse debt
`ledger[a][b] = amount - d` with `ledger[b][a] = 0`. With `d = 10` and
`amount = 15` this is exactly scenario C of the specification. -/
theorem c6_overpayment (ids : List String) (a b : String) (t : Totals) (L : Ledger)
    (d amt : ℚ) (g : String) (hn : ids.Nodup) (ha : a ∈ ids) (hb : b ∈ ids)
    (hab : a ≠ b) (hba : L b a = JsVal.num d) (hab0 : L a b = JsVal.num 0)
    (hd : 0 ≤ d) (hover : d < amt) :
    ∃ st', applySettlement ids ⟨t, L⟩ ⟨b, a, amt, g⟩ = Except.ok st' ∧
      st'.ledger b a = JsVal.num (d - amt) ∧ d - amt < 0 ∧
      netLedger ids st'.ledger a b = JsVal.num (amt - d) ∧
      netLedger ids st'.ledger b a = JsVal.num 0 := by
  have hL1 : updL L b a (jsSub (L b a) amt) a b = JsVal.num 0 := by
    have hcond : ¬(a = b ∧ b = a) := fun hc => hab hc.1
    rw [updL_apply, if_neg hcond]
    exact hab0
  have hL2 : updL L b a (jsSub (L b a) amt) b a = JsVal.num (d - amt) := by
    rw [updL_apply, if_pos ⟨rfl, rfl⟩, hba]
    rfl
  refine ⟨⟨updT (updT t b (jsAdd (t b) amt)) a (jsSub (updT t b (jsAdd (t b) amt) a) amt),
    updL L b a (jsSub (L b a) amt)⟩, ?_, hL2, by linarith, ?_, ?_⟩
  · simp [applySettlement, hb]
  · rw [netLedger_spec hn _ ha hb hab]
    unfold pointwiseNet
    dsimp only
    rw [hL1, hL2]
    simp only [jsSubV]
    have h5 : max (0 - (d - amt)) 0 = amt - d := by
      rw [max_eq_left (by linarith : (0 : ℚ) ≤ 0 - (d - amt))]
      ring
    rw [h5]
  · rw [netLedger_spec hn _ hb ha hab.symm]
    unfold pointwiseNet
    dsimp only
    rw [hL1, hL2]
    simp only [jsSubV]
    have h5 : max (d - amt - 0) 0 = 0 := by
      rw [max_eq_right (by linarith : (d - amt - 0 : ℚ) ≤ 0)]
    rw [h5]

theorem c6_overpayment_witness :
    ∃ st',
      applySettlement ["x", "y"]
          ⟨fun _ => JsVal.num 0,
            fun u v => if u = "y" ∧ v = "x" then JsVal.num 10 else JsVal.num 0⟩
          ⟨"y", "x", 15, "g"⟩ = Except.ok st' ∧
      st'.ledger "y" "x" = JsVal.num (10 - 15) ∧ (10 : ℚ) - 15 < 0 ∧
      netLedger ["x", "y"] st'.ledger "x" "y" = JsVal.num (15 - 10) ∧
      netLedger ["x", "y"] st'.ledger "y" "x" = JsVal.num 0 :=
  c6_overpayment ["x", "y"] "x" "y" (fun _ => JsVal.num 0)
    (fun u v => if u = "y" ∧ v = "x" then JsVal.num 10 else JsVal.num 0)
    10 15 "g" (by decide) (by decide) (by decide) (by decide) (by decide) (by decide)
    (by decide) (by decide)

/-! ### Skipped splits, crashing splits, and fold congruence -/

theorem applySplit_skip {ids : List String} {payer : String} {st : St} {s : Split}
    (h : s.userId = payer ∨ s.paid = true) :
    applySplit ids payer st s = Except.ok st := by
  simp [applySplit, h]

theorem applySplit_bad {ids : List String} {payer : String} {st : St} {s : Split}
    (h1 : s.userId ∉ ids) (h2 : s.userId ≠ payer) (h3 : s.paid = false) :
    applySplit ids payer st s = Except.error () := by
  have hskip : ¬(s.userId = payer ∨ s.paid = true) := by
    rintro (h | h)
    · exact h2 h
    · rw [h3] at h
      exact Bool.false_ne_true h
  simp [applySplit, hskip, h1]

theorem splits_fold_removal {ids : List String} {payer : String} {s : Split}
    (h : s.userId = payer ∨ s.paid = true) :
    ∀ (l1 l2 : List Split) (st : St),
      foldExceptSt (applySplit ids payer) st (l1 ++ s :: l2)
        = foldExceptSt (applySplit ids payer) st (l1 ++ l2) := by
  intro l1
  induction l1 with
  | nil =>
    intro l2 st
    simp only [List.nil_append]
    rw [foldExceptSt_cons_ok _ _ (applySplit_skip h)]
  | cons x l1 ih =>
    intro l2 st
    simp only [List.cons_append]
    rcases hx : applySplit ids payer st x with e1 | st1
    · have hx0 : applySplit ids payer st x = Except.error () := by rw [hx]
      rw [foldExceptSt_cons_err _ _ hx0, foldExceptSt_cons_err _ _ hx0]
    · rw [foldExceptSt_cons_ok _ _ hx, foldExceptSt_cons_ok _ _ hx]
      exact ih l2 st1

theorem splits_fold_bad {ids : List String} {payer : String} {s : Split}
    (h1 : s.userId ∉ ids) (h2 : s.userId ≠ payer) (h3 : s.paid = false) :
    ∀ (l1 l2 : List Split) (st : St),
      foldExceptSt (applySplit ids payer) st (l1 ++ s :: l2) = Except.error () := by
  intro l1
  induction l1 with
  | nil =>
    intro l2 st
    simp only [List.nil_append]
    exact foldExceptSt_cons_err _ _ (applySplit_bad h1 h2 h3)
  | cons x l1 ih =>
    intro l2 st
    simp only [List.cons_append]
    rcases hx : applySplit ids payer st x with e1 | st1
    · exact foldExceptSt_cons_err _ _ (by rw [hx])
    · rw [foldExceptSt_cons_ok _ _ hx]
      exact ih l2 st1

theorem expenses_fold_bad {ids : List String} {e : Expense}
    (hbad : ∀ st : St, applyExpense ids st e = Except.error ()) :
    ∀ (es1 es2 : List Expense) (st : St),
      foldExceptSt (applyExpense ids) st (es1 ++ e :: es2) = Except.error () := by
  intro es1
  induction es1 with
  | nil =>
    intro es2 st
    simp only [List.nil_append]
    exact foldExceptSt_cons_err _ _ (hbad st)
  | cons x es1 ih =>
    intro es2 st
    simp only [List.cons_append]
    rcases hx : applyExpense ids st x with e1 | st1
    · exact foldExceptSt_cons_err _ _ (by rw [hx])
    · rw [foldExceptSt_cons_ok _ _ hx]
      exact ih es2 st1

theorem foldExceptSt_middle_congr {α : Type} (f : St → α → Except Unit St) {x x' : α}
    (hxx : ∀ st, f st x = f st x') :
    ∀ (l1 l2 : List α) (st : St),
      foldExceptSt f st (l1 ++ x :: l2) = foldExceptSt f st (l1 ++ x' :: l2) := by
  intro l1
  induction l1 with
  | nil =>
    intro l2 st
    simp only [List.nil_append]
    rcases hx : f st x with e1 | st1
    · have h1 : f st x = Except.error () := by rw [hx]
      have h2 : f st x' = Except.error () := by rw [← hxx st, hx]
      rw [foldExceptSt_cons_err _ _ h1, foldExceptSt_cons_err _ _ h2]
    · have h2 : f st x' = Except.ok st1 := by rw [← hxx st, hx]
      rw [foldExceptSt_cons_ok _ _ hx, foldExceptSt_cons_ok _ _ h2]
  | cons y l1 ih =>
    intro l2 st
    simp only [List.cons_append]
    rcases hy : f st y with e1 | st1
    · have h1 : f st y = Except.error () := by rw [hy]
      rw [foldExceptSt_cons_err _ _ h1, foldExceptSt_cons_err _ _ h1]
    · rw [foldExceptSt_cons_ok _ _ hy, foldExceptSt_cons_ok _ _ hy]
      exact ih l2 st1

theorem applySplit_diag {ids : List String} {payer : String} {st st' : St} {s : Split}
    (h : applySplit ids payer st s = Except.ok st') (m : String) :
    st'.ledger m m = st.ledger m m := by
  by_cases hskip : s.userId = payer ∨ s.paid = true
  · rw [applySplit_skip hskip] at h
    obtain rfl : st = st' := by injection h
    rfl
  · simp only [applySplit, if_neg hskip] at h
    by_cases hu : s.userId ∈ ids
    · rw [if_pos hu] at h
      injection h with h
      rw [← h]
      push_neg at hskip
      have hne : ¬(m = s.userId ∧ m = payer) := by
        rintro ⟨hm1, hm2⟩
        exact hskip.1 (hm1.symm.trans hm2)
      show updL st.ledger s.userId payer (jsAdd (st.ledger s.userId payer) s.amount) m m
        = st.ledger m m
      rw [updL_apply, if_neg hne]
    · rw [if_neg hu] at h
      exact absurd h (by simp)

theorem applyExpense_diag {ids : List String} {st st' : St} {e : Expense}
    (h : applyExpense ids st e = Except.ok st') (m : String) :
    st'.ledger m m = st.ledger m m := by
  unfold applyExpense at h
  revert h
  generalize e.splits = sl
  induction sl generalizing st with
  | nil =>
    intro h
    obtain rfl : st = st' := by injection h
    rfl
  | cons s sl ih =>
    intro h
    rcases hx : applySplit ids e.paidByUserId st s with e1 | st1
    · rw [foldExceptSt_cons_err _ _ (by rw [hx])] at h
      exact absurd h (by simp)
    · rw [foldExceptSt_cons_ok _ _ hx] at h
      rw [ih h, applySplit_diag hx m]

/-- C5: self-splits and settled splits contribute nothing. Removing a
split whose `userId` equals the payer or whose `paid` flag is set leaves
the whole pre-netting state (every ledger cell and every net total)
unchanged; and expense application never touches a diagonal ledger cell,
so no member ever owes or is owed by themselves via an expense. -/
theorem c5_skip_split (ids : List String) (payer gid : String) (s : Split)
    (hsk : s.userId = payer ∨ s.paid = true)
    (es1 es2 : List Expense) (l1 l2 : List Split) (ss : List Settlement) :
    buildState ids (es1 ++ ⟨payer, l1 ++ s :: l2, gid⟩ :: es2) ss
      = buildState ids (es1 ++ ⟨payer, l1 ++ l2, gid⟩ :: es2) ss
    ∧ ∀ (e : Expense) (st st' : St), applyExpense ids st e = Except.ok st' →
        ∀ m, st'.ledger m m = st.ledger m m := by
  constructor
  · unfold buildState
    have hexp : ∀ st : St, applyExpense ids st ⟨payer, l1 ++ s :: l2, gid⟩
        = applyExpense ids st ⟨payer, l1 ++ l2, gid⟩ := by
      intro st
      unfold applyExpense
      exact splits_fold_removal hsk l1 l2 st
    rw [foldExceptSt_middle_congr (applyExpense ids) hexp es1 es2]
  · intro e st st' h m
    exact applyExpense_diag h m

theorem c5_skip_split_witness :
    buildState ["p", "q"] ([] ++ ⟨"p", [] ++ ⟨"p", 5, false⟩ :: [⟨"q", 3, false⟩], "g"⟩ :: []) []
      = buildState ["p", "q"] ([] ++ ⟨"p", [] ++ [⟨"q", 3, false⟩], "g"⟩ :: []) []
    ∧ ∀ (e : Expense) (st st' : St), applyExpense ["p", "q"] st e = Except.ok st' →
        ∀ m, st'.ledger m m = st.ledger m m :=
  c5_skip_split ["p", "q"] "p" "g" ⟨"p", 5, false⟩ (by decide) [] [] [] [⟨"q", 3, false⟩] []

/-- C4 counterexample: the claim "a split whose member is not in the
group's member set is dropped and the computation completes without
failure, producing the same result as with the split removed" is false.
With roster `[a, b]` and one expense paid by `a` containing the single
unsettled split `{userId: c, amount: 5}`, the computation throws a
`TypeError` (reading `ledger[c]`, a missing row), while the same input
with the split removed succeeds; the two results differ. -/
theorem c4_counterexample :
    computeBalances ["a", "b"] [⟨"a", [⟨"c", 5, false⟩], "g"⟩] [] = Except.error () ∧
    computeBalances ["a", "b"] [⟨"a", ([] : List Split), "g"⟩] []
      ≠ computeBalances ["a", "b"] [⟨"a", [⟨"c", 5, false⟩], "g"⟩] [] := by
  refine ⟨rfl, ?_⟩
  intro hcontra
  have h2 : (Except.ok (projectBalances ["a", "b"] (initTotals ["a", "b"])
      (netLedger ["a", "b"] (initLedger ["a", "b"]))) : Except Unit (List MemberBalance))
      = Except.error () := hcontra
  exact Except.noConfusion h2

/-- C4 (amended): deleted-user splits are NOT dropped. For every input
containing an unsettled, non-payer split whose member is not in the
group's member set, the balance computation throws a `TypeError` when it
writes `ledger[debtor][payer]` into the missing row, so the whole query
fails instead of completing. -/
theorem c4_unknown_member_split_fails (ids : List String) (es1 es2 : List Expense)
    (payer gid : String) (l1 l2 : List Split) (s : Split) (ss : List Settlement)
    (h1 : s.userId ∉ ids) (h2 : s.userId ≠ payer) (h3 : s.paid = false) :
    computeBalances ids (es1 ++ ⟨payer, l1 ++ s :: l2, gid⟩ :: es2) ss
      = Except.error () := by
  have hbad : ∀ st : St, applyExpense ids st ⟨payer, l1 ++ s :: l2, gid⟩
      = Except.error () := by
    intro st
    unfold applyExpense
    exact splits_fold_bad h1 h2 h3 l1 l2 st
  unfold computeBalances buildState
  rw [expenses_fold_bad hbad es1 es2 _]

theorem c4_unknown_member_split_fails_witness :
    computeBalances ["a", "b"] ([] ++ ⟨"a", [] ++ ⟨"c", 5, false⟩ :: [], "g"⟩ :: []) []
      = Except.error () :=
  c4_unknown_member_split_fails ["a", "b"] [] [] "a" "g" [] [] ⟨"c", 5, false⟩ []
    (by decide) (by decide) rfl

/-- C7: authorization failures abort before any computation. When the
referenced group is absent from the groups table, or present but the
current user is not among its members, `getGroupExpenses` returns the
corresponding error, and the result is the same whatever the contents of
the expenses and settlements tables: no expense or settlement is
consulted and no balance data is produced. -/
theorem c7_authorization_abort (db : DB) (currentUserId groupId : String)
    (h : db.groups.find? (fun g => g.gid == groupId) = none ∨
      ∃ g, db.groups.find? (fun g2 => g2.gid == groupId) = some g ∧
        g.members.any (fun m => m == currentUserId) = false) :
    ∃ msg, ∀ (es : List Expense) (ss : List Settlement),
      getGroupExpenses ⟨db.groups, es, ss⟩ currentUserId groupId
        = Except.error msg := by
  rcases h with h | ⟨g, hg, hmem⟩
  · exact ⟨"Group not found", fun es ss => by simp [getGroupExpenses, h]⟩
  · refine ⟨"You are not a member of this group", fun es ss => ?_⟩
    simp [getGroupExpenses, hg, hmem]

theorem c7_authorization_abort_witness :
    (∃ msg, ∀ (es : List Expense) (ss : List Settlement),
      getGroupExpenses ⟨[⟨"g1", ["u1"]⟩], es, ss⟩ "u2" "g1" = Except.error msg) ∧
    (∃ msg, ∀ (es : List Expense) (ss : List Settlement),
      getGroupExpenses ⟨[⟨"g1", ["u1"]⟩], es, ss⟩ "u1" "g9" = Except.error msg) :=
  ⟨c7_authorization_abort ⟨[⟨"g1", ["u1"]⟩], [], []⟩ "u2" "g1"
      (Or.inr ⟨⟨"g1", ["u1"]⟩, rfl, rfl⟩),
    c7_authorization_abort ⟨[⟨"g1", ["u1"]⟩], [], []⟩ "u1" "g9" (Or.inl rfl)⟩

/-! ### Self-settlements: the NaN diagonal is invisible in the output -/

theorem jsAdd_ne_undef (v : JsVal) (q : ℚ) : jsAdd v q ≠ JsVal.undef := by
  cases v <;> simp [jsAdd]

theorem jsSub_ne_undef (v : JsVal) (q : ℚ) : jsSub v q ≠ JsVal.undef := by
  cases v <;> simp [jsSub]

theorem jsSub_notNum {v : JsVal} (h : notNum v) (q : ℚ) : jsSub v q = JsVal.nan := by
  rcases h with rfl | rfl <;> rfl

theorem jsGt0_notNum {v : JsVal} (h : notNum v) : jsGt0 v = false := by
  rcases h with rfl | rfl <;> rfl

theorem init_good (ids : List String) :
    GoodSt ids ⟨initTotals ids, initLedger ids⟩ := by
  constructor
  · intro x hx
    simp [initTotals, hx]
  · intro m
    left
    simp [initLedger]

theorem foldExceptSt_preserve {α : Type} {P : St → Prop} {f : St → α → Except Unit St}
    (hf : ∀ (st : St) (a : α) (st' : St), P st → f st a = Except.ok st' → P st') :
    ∀ (l : List α) (st st' : St), P st →
      foldExceptSt f st l = Except.ok st' → P st' := by
  intro l
  induction l with
  | nil =>
    intro st st' hP h
    obtain rfl : st = st' := by injection h
    exact hP
  | cons a l ih =>
    intro st st' hP h
    rcases hx : f st a with e1 | st1
    · rw [foldExceptSt_cons_err _ _ (by rw [hx])] at h
      exact absurd h (by simp)
    · rw [foldExceptSt_cons_ok _ _ hx] at h
      exact ih st1 st' (hf st a st1 hP hx) h

theorem applySplit_good {ids : List String} {payer : String} {st st' : St} {s : Split}
    (hg : GoodSt ids st) (h : applySplit ids payer st s = Except.ok st') :
    GoodSt ids st' := by
  by_cases hskip : s.userId = payer ∨ s.paid = true
  · rw [applySplit_skip hskip] at h
    obtain rfl : st = st' := by injection h
    exact hg
  · simp only [applySplit, if_neg hskip] at h
    by_cases hu : s.userId ∈ ids
    · rw [if_pos hu] at h
      injection h with h
      rw [← h]
      constructor
      · intro x hx
        show updT (updT st.totals payer (jsAdd (st.totals payer) s.amount)) s.userId
          (jsSub (updT st.totals payer (jsAdd (st.totals payer) s.amount) s.userId)
            s.amount) x ≠ JsVal.undef
        rw [updT_apply]
        split_ifs with hx1
        · exact jsSub_ne_undef _ _
        · rw [updT_apply]
          split_ifs with hx2
          · exact jsAdd_ne_undef _ _
          · exact hg.1 x hx
      · intro m
        show notNum (updL st.ledger s.userId payer
          (jsAdd (st.ledger s.userId payer) s.amount) m m)
        push_neg at hskip
        rw [updL_apply]
        split_ifs with hm
        · exact absurd (hm.1.symm.trans hm.2) hskip.1
        · exact hg.2 m
    · rw [if_neg hu] at h
      exact absurd h (by simp)

theorem applySettlement_good {ids : List String} {st st' : St} {s : Settlement}
    (hg : GoodSt ids st) (h : applySettlement ids st s = Except.ok st') :
    GoodSt ids st' := by
  by_cases hp : s.paidByUserId ∈ ids
  · simp only [applySettlement, if_pos hp] at h
    injection h with h
    rw [← h]
    constructor
    · intro x hx
      show updT (updT st.totals s.paidByUserId (jsAdd (st.totals s.paidByUserId) s.amount))
        s.receivedByUserId
        (jsSub (updT st.totals s.paidByUserId (jsAdd (st.totals s.paidByUserId) s.amount)
          s.receivedByUserId) s.amount) x ≠ JsVal.undef
      rw [updT_apply]
      split_ifs with hx1
      · exact jsSub_ne_undef _ _
      · rw [updT_apply]
        split_ifs with hx2
        · exact jsAdd_ne_undef _ _
        · exact hg.1 x hx
    · intro m
      show notNum (updL st.ledger s.paidByUserId s.receivedByUserId
        (jsSub (st.ledger s.paidByUserId s.receivedByUserId) s.amount) m m)
      rw [updL_apply]
      split_ifs with hm
      · rw [← hm.1, ← hm.2, jsSub_notNum (hg.2 m)]
        exact Or.inr rfl
      · exact hg.2 m
  · simp only [applySettlement, if_neg hp] at h
    exact absurd h (by simp)

theorem applyExpense_good {ids : List String} :
    ∀ (st : St) (e : Expense) (st' : St), GoodSt ids st →
      applyExpense ids st e = Except.ok st' → GoodSt ids st' :=
  fun st e st' hg h =>
    foldExceptSt_preserve (fun st0 s0 st0' hg0 h0 => applySplit_good hg0 h0)
      e.splits st st' hg h

theorem applySettlement_rel {ids : List String} {p : String} {st1 st2 : St}
    (hrel : RelDiag p st1 st2) (s : Settlement) :
    (applySettlement ids st1 s = Except.error () ∧
      applySettlement ids st2 s = Except.error ()) ∨
    (∃ u1 u2, applySettlement ids st1 s = Except.ok u1 ∧
      applySettlement ids st2 s = Except.ok u2 ∧ RelDiag p u1 u2) := by
  obtain ⟨ht, hl, hd1, hd2⟩ := hrel
  by_cases hp : s.paidByUserId ∈ ids
  · refine Or.inr ⟨⟨updT (updT st1.totals s.paidByUserId
        (jsAdd (st1.totals s.paidByUserId) s.amount)) s.receivedByUserId
        (jsSub (updT st1.totals s.paidByUserId (jsAdd (st1.totals s.paidByUserId) s.amount)
          s.receivedByUserId) s.amount),
      updL st1.ledger s.paidByUserId s.receivedByUserId
        (jsSub (st1.ledger s.paidByUserId s.receivedByUserId) s.amount)⟩,
      ⟨updT (updT st2.totals s.paidByUserId
        (jsAdd (st2.totals s.paidByUserId) s.amount)) s.receivedByUserId
        (jsSub (updT st2.totals s.paidByUserId (jsAdd (st2.totals s.paidByUserId) s.amount)
          s.receivedByUserId) s.amount),
      updL st2.ledger s.paidByUserId s.receivedByUserId
        (jsSub (st2.ledger s.paidByUserId s.receivedByUserId) s.amount)⟩,
      by simp [applySettlement, hp], by simp [applySettlement, hp], ?_, ?_, ?_, ?_⟩
    · show updT (updT st1.totals _ _) _ _ = updT (updT st2.totals _ _) _ _
      rw [ht]
    · intro x y hxy
      show updL st1.ledger _ _ _ x y = updL st2.ledger _ _ _ x y
      rw [updL_apply, updL_apply]
      split_ifs with hc
      · have hcell : ¬(s.paidByUserId = p ∧ s.receivedByUserId = p) := by
          rintro ⟨hq1, hq2⟩
          exact hxy ⟨hc.1.trans hq1, hc.2.trans hq2⟩
        rw [hl s.paidByUserId s.receivedByUserId hcell]
      · exact hl x y hxy
    · show notNum (updL st1.ledger _ _ _ p p)
      rw [updL_apply]
      split_ifs with hc
      · rw [← hc.1, ← hc.2, jsSub_notNum hd1]
        exact Or.inr rfl
      · exact hd1
    · show notNum (updL st2.ledger _ _ _ p p)
      rw [updL_apply]
      split_ifs with hc
      · rw [← hc.1, ← hc.2, jsSub_notNum hd2]
        exact Or.inr rfl
      · exact hd2
  · exact Or.inl ⟨by simp [applySettlement, hp], by simp [applySettlement, hp]⟩

theorem settlements_fold_rel {ids : List String} {p : String} :
    ∀ (ss : List Settlement) {st1 st2 : St}, RelDiag p st1 st2 →
      (foldExceptSt (applySettlement ids) st1 ss = Except.error () ∧
        foldExceptSt (applySettlement ids) st2 ss = Except.error ()) ∨
      (∃ u1 u2, foldExceptSt (applySettlement ids) st1 ss = Except.ok u1 ∧
        foldExceptSt (applySettlement ids) st2 ss = Except.ok u2 ∧ RelDiag p u1 u2) := by
  intro ss
  induction ss with
  | nil =>
    intro st1 st2 hrel
    exact Or.inr ⟨st1, st2, rfl, rfl, hrel⟩
  | cons s ss ih =>
    intro st1 st2 hrel
    rcases applySettlement_rel hrel s with ⟨h1, h2⟩ | ⟨u1, u2, h1, h2, hrel2⟩
    · exact Or.inl ⟨foldExceptSt_cons_err _ _ h1, foldExceptSt_cons_err _ _ h2⟩
    · rw [foldExceptSt_cons_ok _ _ h1, foldExceptSt_cons_ok _ _ h2]
      exact ih hrel2

theorem self_settlement_insert {ids : List String} {p : String} {st : St}
    (hp : p ∈ ids) (hg : GoodSt ids st) (amt : ℚ) (g : String) :
    ∃ u1, applySettlement ids st ⟨p, p, amt, g⟩ = Except.ok u1 ∧ RelDiag p u1 st := by
  refine ⟨⟨updT (updT st.totals p (jsAdd (st.totals p) amt)) p
      (jsSub (updT st.totals p (jsAdd (st.totals p) amt) p) amt),
    updL st.ledger p p (jsSub (st.ledger p p) amt)⟩,
    by simp [applySettlement, hp], ?_, ?_, ?_, ?_⟩
  · show updT (updT st.totals p (jsAdd (st.totals p) amt)) p
      (jsSub (updT st.totals p (jsAdd (st.totals p) amt) p) amt) = st.totals
    funext x
    rw [updT_apply]
    split_ifs with hx
    · subst hx
      rw [updT_apply, if_pos rfl]
      rcases hv : st.totals x with _ | _ | q
      · exact absurd hv (hg.1 x hp)
      · rfl
      · simp [jsAdd, jsSub]
    · rw [updT_apply, if_neg hx]
  · intro x y hxy
    show updL st.ledger p p (jsSub (st.ledger p p) amt) x y = st.ledger x y
    rw [updL_apply, if_neg hxy]
  · show notNum (updL st.ledger p p (jsSub (st.ledger p p) amt) p p)
    rw [updL_apply, if_pos ⟨rfl, rfl⟩, jsSub_notNum (hg.2 p)]
    exact Or.inr rfl
  · exact hg.2 p

theorem map_congr_self {α β : Type} {l : List α} {f g : α → β}
    (h : ∀ x ∈ l, f x = g x) : l.map f = l.map g := by
  induction l with
  | nil => rfl
  | cons a l ih =>
    rw [List.map_cons, List.map_cons, h a (List.mem_cons_self _ _),
      ih (fun x hx => h x (List.mem_cons_of_mem _ hx))]

theorem filter_map_congr {l : List String} {p1 p2 : String → Bool}
    {f1 f2 : String → String × JsVal}
    (h : ∀ x ∈ l, p1 x = p2 x ∧ (p1 x = true → f1 x = f2 x)) :
    (l.filter p1).map f1 = (l.filter p2).map f2 := by
  induction l with
  | nil => rfl
  | cons a l ih =>
    obtain ⟨h1, h2⟩ := h a (List.mem_cons_self _ _)
    have ih2 := ih (fun x hx => h x (List.mem_cons_of_mem _ hx))
    rw [List.filter_cons, List.filter_cons, ← h1]
    by_cases hpa : p1 a = true
    · simp only [hpa, if_true, List.map_cons, ih2, h2 hpa]
    · simp only [Bool.not_eq_true] at hpa
      simp only [hpa, Bool.false_eq_true, if_false, ih2]

theorem project_rel {ids : List String} {p : String} (hn : ids.Nodup) {l1 l2 : Ledger}
    (hl : ∀ x y, ¬(x = p ∧ y = p) → l1 x y = l2 x y)
    (hd1 : notNum (l1 p p)) (hd2 : notNum (l2 p p)) (t : Totals) :
    projectBalances ids t (netLedger ids l1) = projectBalances ids t (netLedger ids l2) := by
  have hN : ∀ x y, ¬(x = p ∧ y = p) → netLedger ids l1 x y = netLedger ids l2 x y := by
    intro x y hxy
    by_cases hm : x ∈ ids ∧ y ∈ ids ∧ x ≠ y
    · obtain ⟨hx, hy, hxy2⟩ := hm
      rw [netLedger_spec hn l1 hx hy hxy2, netLedger_spec hn l2 hx hy hxy2]
      refine pointwiseNet_congr (hl x y hxy) (hl y x ?_)
      rintro ⟨rfl, rfl⟩
      exact hxy2 rfl
    · have hfr : x ∉ ids ∨ y ∉ ids ∨ x = y := by
        by_cases hx : x ∈ ids
        · by_cases hy : y ∈ ids
          · refine Or.inr (Or.inr ?_)
            by_contra hne
            exact hm ⟨hx, hy, hne⟩
          · exact Or.inr (Or.inl hy)
        · exact Or.inl hx
      rw [netLedger_frame hn l1 hfr, netLedger_frame hn l2 hfr]
      exact hl x y hxy
  have hNp1 : jsGt0 (netLedger ids l1 p p) = false := by
    rw [netLedger_frame hn l1 (Or.inr (Or.inr rfl))]
    exact jsGt0_notNum hd1
  have hNp2 : jsGt0 (netLedger ids l2 p p) = false := by
    rw [netLedger_frame hn l2 (Or.inr (Or.inr rfl))]
    exact jsGt0_notNum hd2
  unfold projectBalances
  refine map_congr_self (fun m hm => ?_)
  have howes : (ids.filter (fun b => jsGt0 (netLedger ids l1 m b))).map
      (fun b => (b, netLedger ids l1 m b))
      = (ids.filter (fun b => jsGt0 (netLedger ids l2 m b))).map
        (fun b => (b, netLedger ids l2 m b)) := by
    refine filter_map_congr (fun b hb => ?_)
    by_cases hc : m = p ∧ b = p
    · obtain ⟨rfl, rfl⟩ := hc
      refine ⟨by rw [hNp1, hNp2], fun habs => ?_⟩
      rw [hNp1] at habs
      exact absurd habs (by simp)
    · rw [hN m b hc]
      exact ⟨rfl, fun h3 => rfl⟩
  have howed : (ids.filter (fun other => jsGt0 (netLedger ids l1 other m))).map
      (fun other => (other, netLedger ids l1 other m))
      = (ids.filter (fun other => jsGt0 (netLedger ids l2 other m))).map
        (fun other => (other, netLedger ids l2 other m)) := by
    refine filter_map_congr (fun b hb => ?_)
    by_cases hc : b = p ∧ m = p
    · obtain ⟨rfl, rfl⟩ := hc
      refine ⟨by rw [hNp1, hNp2], fun habs => ?_⟩
      rw [hNp1] at habs
      exact absurd habs (by simp)
    · rw [hN b m hc]
      exact ⟨rfl, fun h3 => rfl⟩
  rw [MemberBalance.mk.injEq]
  exact ⟨rfl, rfl, howes, howed⟩

theorem foldExceptSt_append_ok {α : Type} (f : St → α → Except Unit St) {st st1 : St}
    (l1 l2 : List α) (h : foldExceptSt f st l1 = Except.ok st1) :
    foldExceptSt f st (l1 ++ l2) = foldExceptSt f st1 l2 := by
  rw [foldExceptSt_append, h]

theorem foldExceptSt_append_err {α : Type} (f : St → α → Except Unit St) {st : St}
    {e : Unit} (l1 l2 : List α) (h : foldExceptSt f st l1 = Except.error e) :
    foldExceptSt f st (l1 ++ l2) = Except.error e := by
  rw [foldExceptSt_append, h]

theorem buildState_ok_settlements {ids : List String} {es : List Expense} {st1 : St}
    (hexp : foldExceptSt (applyExpense ids) ⟨initTotals ids, initLedger ids⟩ es
      = Except.ok st1) (ss : List Settlement) :
    buildState ids es ss = foldExceptSt (applySettlement ids) st1 ss := by
  unfold buildState
  rw [hexp]

theorem buildState_err_expenses {ids : List String} {es : List Expense} {e : Unit}
    (hexp : foldExceptSt (applyExpense ids) ⟨initTotals ids, initLedger ids⟩ es
      = Except.error e) (ss : List Settlement) :
    buildState ids es ss = Except.error e := by
  unfold buildState
  rw [hexp]

theorem computeBalances_of_buildState_ok {ids : List String} {es : List Expense}
    {ss : List Settlement} {st : St} (h : buildState ids es ss = Except.ok st) :
    computeBalances ids es ss
      = Except.ok (projectBalances ids st.totals (netLedger ids st.ledger)) := by
  unfold computeBalances
  rw [h]

theorem computeBalances_of_buildState_err {ids : List String} {es : List Expense}
    {ss : List Settlement} {e : Unit} (h : buildState ids es ss = Except.error e) :
    computeBalances ids es ss = Except.error e := by
  unfold computeBalances
  rw [h]

/-- C8: self-settlements are output-invisible. Adding a settlement whose
payer equals its receiver leaves the computed `balances` array (every
member's `totalBalance`, `owes` and `owedBy` lists) exactly unchanged:
the two totals updates cancel, and the `NaN` written into the diagonal
ledger cell fails every strictly-positive filter of the projection. -/
theorem c8_self_settlement (ids : List String) (es : List Expense)
    (s1 s2 : List Settlement) (p gid : String) (amt : ℚ)
    (hn : ids.Nodup) (hp : p ∈ ids) :
    computeBalances ids es (s1 ++ ⟨p, p, amt, gid⟩ :: s2)
      = computeBalances ids es (s1 ++ s2) := by
  rcases hexp : foldExceptSt (applyExpense ids) ⟨initTotals ids, initLedger ids⟩ es
    with e1 | st1
  · rw [computeBalances_of_buildState_err (buildState_err_expenses hexp _),
      computeBalances_of_buildState_err (buildState_err_expenses hexp _)]
  · have hg1 : GoodSt ids st1 :=
      foldExceptSt_preserve applyExpense_good es _ st1 (init_good ids) hexp
    rcases hs1 : foldExceptSt (applySettlement ids) st1 s1 with e2 | st2
    · rw [computeBalances_of_buildState_err (by
          rw [buildState_ok_settlements hexp]
          exact foldExceptSt_append_err _ s1 _ hs1),
        computeBalances_of_buildState_err (by
          rw [buildState_ok_settlements hexp]
          exact foldExceptSt_append_err _ s1 _ hs1)]
    · have hg2 : GoodSt ids st2 :=
        foldExceptSt_preserve (fun a b c d e => applySettlement_good d e) s1 st1 st2 hg1 hs1
      obtain ⟨u1, hu1, hrel⟩ := self_settlement_insert hp hg2 amt gid
      have hA : foldExceptSt (applySettlement ids) st1 (s1 ++ ⟨p, p, amt, gid⟩ :: s2)
          = foldExceptSt (applySettlement ids) u1 s2 := by
        rw [foldExceptSt_append_ok _ s1 _ hs1, foldExceptSt_cons_ok _ _ hu1]
      have hB : foldExceptSt (applySettlement ids) st1 (s1 ++ s2)
          = foldExceptSt (applySettlement ids) st2 s2 :=
        foldExceptSt_append_ok _ s1 s2 hs1
      rcases settlements_fold_rel s2 hrel with ⟨h1, h2⟩ | ⟨v1, v2, h1, h2, hrel2⟩
      · rw [computeBalances_of_buildState_err (by
            rw [buildState_ok_settlements hexp, hA]
            exact h1),
          computeBalances_of_buildState_err (by
            rw [buildState_ok_settlements hexp, hB]
            exact h2)]
      · rw [computeBalances_of_buildState_ok (by
            rw [buildState_ok_settlements hexp, hA]
            exact h1),
          computeBalances_of_buildState_ok (by
            rw [buildState_ok_settlements hexp, hB]
            exact h2)]
        obtain ⟨ht, hl, hv1, hv2⟩ := hrel2
        rw [show v1.totals = v2.totals from ht, project_rel hn hl hv1 hv2 v2.totals]

theorem c8_self_settlement_witness :
    computeBalances ["m", "n"] [⟨"m", [⟨"n", 6, false⟩], "g"⟩]
        ([] ++ ⟨"n", "n", 4, "g"⟩ :: [⟨"n", "m", 2, "g"⟩])
      = computeBalances ["m", "n"] [⟨"m", [⟨"n", 6, false⟩], "g"⟩]
        ([] ++ [⟨"n", "m", 2, "g"⟩]) :=
  c8_self_settlement ["m", "n"] [⟨"m", [⟨"n", 6, false⟩], "g"⟩] []
    [⟨"n", "m", 2, "g"⟩] "n" "g" 4 (by decide) (by decide)
